import Mathlib

/-!
Verification of the text-formatting core of the jira-mcp repository
(`src/utils/formatters.ts`): the plain-text → ADF document converter
`convertToADF`, its inline-mark parser `parseInlineFormatting`, and the
JQL template formatter `formatJQL`.

The embedding works over `List Char` (JavaScript strings are sequences of
code units; all inputs considered here are plain BMP text, where one Lean
`Char` corresponds to one code unit).  Every definition is translated
directly from the TypeScript source; comments cite the source lines.
-/

/-- Backtick character (0x60), written via its code point. -/
def bq : Char := Char.ofNat 96

/-- Single-quote character (0x27). -/
def sqc : Char := Char.ofNat 39

/-- Left curly brace (0x7B). -/
def lbrace : Char := Char.ofNat 123

/-- Right curly brace (0x7D). -/
def rbrace : Char := Char.ofNat 125

/-- The JavaScript whitespace class: the set matched by regex `\s` and
removed by `String.prototype.trim` (WhiteSpace ∪ LineTerminator). -/
def jsWs (c : Char) : Bool :=
  c.toNat = 9 || c.toNat = 10 || c.toNat = 11 || c.toNat = 12 || c.toNat = 13 ||
  c.toNat = 32 || c.toNat = 160 || c.toNat = 0x1680 ||
  (0x2000 ≤ c.toNat && c.toNat ≤ 0x200A) ||
  c.toNat = 0x2028 || c.toNat = 0x2029 || c.toNat = 0x202F ||
  c.toNat = 0x205F || c.toNat = 0x3000 || c.toNat = 0xFEFF

/-- JavaScript `String.prototype.trim`: drop `jsWs` from both ends. -/
def jsTrim (l : List Char) : List Char :=
  ((l.dropWhile jsWs).reverse.dropWhile jsWs).reverse

/-- JavaScript `l.startsWith(pat)`. -/
def startsWithL : List Char → List Char → Bool
  | _, [] => true
  | [], _ :: _ => false
  | c :: t, p :: ps => c = p && startsWithL t ps

/-- JavaScript `text.split("\n")` (source line 20). -/
def splitNL : List Char → List (List Char)
  | [] => [[]]
  | c :: t =>
    if c = '\n' then [] :: splitNL t
    else
      match splitNL t with
      | [] => [[c]]
      | l :: ls => (c :: l) :: ls

/-- Inline mark kinds: the `marks` entries `strong`, `em`, `code`
produced by `parseInlineFormatting` (source lines 201, 223, 245). -/
inductive Mark
  | strong
  | em
  | code
deriving DecidableEq, Repr

/-- An inline node `{type: "text", text, marks?}`; a missing `marks`
field is modelled as the empty mark list. -/
inductive Inline
  | text (s : List Char) (marks : List Mark)
deriving DecidableEq, Repr

/-- The two list kinds tracked by `currentListType` (source line 24). -/
inductive LKind
  | bullet
  | ordered
deriving DecidableEq, Repr

/-- Block nodes pushed onto `content` by `convertToADF`.  A `listItem`
always wraps exactly one paragraph (source lines 78-91, 106-119), so a
list item is modelled by that paragraph's inline content. -/
inductive Block
  | paragraph (content : List Inline)
  | heading (level : Nat) (content : List Inline)
  | bulletList (items : List (List Inline))
  | orderedList (items : List (List Inline))
  | codeBlock (language : List Char) (text : List Char)
deriving DecidableEq, Repr

/-- The returned document `{version: 1, type: "doc", content}` (source
lines 163-167); the constant `type` tag is omitted. -/
structure ADFDoc where
  version : Nat
  content : List Block
deriving DecidableEq, Repr

/-- Offset of the first occurrence of `x` in the list, `none` when
absent: `text.indexOf(x, start)` relative to `start`. -/
def findCh : List Char → Char → Option Nat
  | [], _ => none
  | c :: t, x => if c = x then some 0 else (findCh t x).map (· + 1)

/-- Offset of the first occurrence of the two-character pattern `**`,
`none` when absent: `text.indexOf("**", start)` relative to `start`. -/
def findSub2 : List Char → Option Nat
  | c1 :: c2 :: t => if c1 = '*' ∧ c2 = '*' then some 0 else (findSub2 (c2 :: t)).map (· + 1)
  | _ => none

/-- The `if (currentText) { result.push({type:"text", text:currentText}) }`
flush (source lines 188-191 and 255-257). -/
def flushCur (cur : List Char) (acc : List Inline) : List Inline :=
  if cur = [] then acc else acc ++ [Inline.text cur []]

/-- One-for-one translation of the character scan of
`parseInlineFormatting` (source lines 181-253).  The JavaScript loop
advances an index `i` by variable jumps; here the suffix starting at `i`
is passed explicitly, together with `prev = text[i-1]` (`none` at the
start).  Each iteration consumes at least one character, so fuel
`length + 1` (supplied by the wrapper) never runs out. -/
def parseScan : Nat → List Char → Option Char → List Char → List Inline → List Inline
  | 0, _, _, cur, acc => flushCur cur acc
  | fuel + 1, s, prev, cur, acc =>
    match s with
    | [] => flushCur cur acc
    | c :: rest =>
      -- Bold with ** (source lines 187-206)
      if c = '*' ∧ rest.head? = some '*' ∧ prev ≠ some '\\' then
        let body := rest.tail
        match findSub2 body with
        | some j =>
          parseScan fuel (body.drop (j + 2)) (some '*') []
            (flushCur cur acc ++ [Inline.text (body.take j) [Mark.strong]])
        | none => flushCur cur acc ++ [Inline.text body [Mark.strong]]
      -- Italic with * (source lines 209-228)
      else if c = '*' ∧ rest.head? ≠ some '*' ∧ prev ≠ some '\\' then
        match findCh rest '*' with
        | some j =>
          parseScan fuel (rest.drop (j + 1)) (some '*') []
            (flushCur cur acc ++ [Inline.text (rest.take j) [Mark.em]])
        | none => flushCur cur acc ++ [Inline.text rest [Mark.em]]
      -- Inline code with ` (source lines 231-250)
      else if c = bq ∧ prev ≠ some '\\' then
        match findCh rest bq with
        | some j =>
          parseScan fuel (rest.drop (j + 1)) (some bq) []
            (flushCur cur acc ++ [Inline.text (rest.take j) [Mark.code]])
        | none => flushCur cur acc ++ [Inline.text rest [Mark.code]]
      else
        parseScan fuel rest (some c) (cur ++ [c]) acc

/-- `parseInlineFormatting` (source lines 175-260), including the
defensive fallback `result.length ? result : [{type:"text", text}]`. -/
def parseInlineFormatting (text : List Char) : List Inline :=
  let r := parseScan (text.length + 1) text none [] []
  if r = [] then [Inline.text text []] else r

/-- Fence test (source line 34):
`trimmedLine === "```" || trimmedLine.startsWith("``` ")`. -/
def isFenceLine (t : List Char) : Bool :=
  decide (t = "```".data) || startsWithL t ("``` ".data)

/-- Bullet test (source line 68):
`trimmedLine.startsWith("- ") || trimmedLine.startsWith("* ")`. -/
def isBulletLine (t : List Char) : Bool :=
  startsWithL t ("- ".data) || startsWithL t ("* ".data)

/-- Ordered-item test (source line 96): `/^\d+\.\s/.test(trimmedLine)`. -/
def isOrderedLine (t : List Char) : Bool :=
  let ds := t.takeWhile Char.isDigit
  decide (ds ≠ []) &&
    (match t.drop ds.length with
     | c :: w :: _ => decide (c = '.') && jsWs w
     | _ => false)

/-- Prefix removal (source line 97):
`trimmedLine.replace(/^\d+\.\s/, "")` on a line passing the test. -/
def stripOrdered (t : List Char) : List Char :=
  t.drop ((t.takeWhile Char.isDigit).length + 2)

/-- Heading trigger (source line 124):
`(trimmedLine.endsWith(":") && nextLine.trim() === "") || trimmedLine.startsWith("#")`. -/
def isHeadingCond (t next : List Char) : Bool :=
  (decide (t.getLast? = some ':') && decide (jsTrim next = [])) || startsWithL t ['#']

/-- The JavaScript line-terminator class: the characters that the regex
wildcard `.` (without the `s` flag) does NOT match. -/
def jsLineTerm (c : Char) : Bool :=
  c.toNat = 10 || c.toNat = 13 || c.toNat = 0x2028 || c.toNat = 0x2029

/-- The regex attempt `trimmedLine.match(/^(#+)\s+(.*)/)` (source line
130): on success the pair of `min(#count, 6)` (source line 132) and the
`(.*)` capture; the match succeeds exactly when the leading `#` run is
followed by at least one whitespace character.  The greedy `\s+`
consumes the whole whitespace run, and `(.*)` then matches up to — but
not including — the first line terminator, since `.` excludes the
`jsLineTerm` characters: any tail after an embedded `\r` (the only
line terminator that can survive the `split("\n")`) is dropped. -/
def headingMatch (t : List Char) : Option (Nat × List Char) :=
  match (t.drop ((t.takeWhile (fun c => c = '#')).length)).head? with
  | some w =>
    if jsWs w then
      some (min ((t.takeWhile (fun c => c = '#')).length) 6,
        ((t.drop ((t.takeWhile (fun c => c = '#')).length)).dropWhile jsWs).takeWhile
          (fun c => !jsLineTerm c))
    else none
  | none => none

/-- Heading construction (source lines 125-146): default level 3 with the
full trimmed line as text; a line starting with `#` uses the regex match
result when it succeeds. -/
def headingBlock (t : List Char) : Block :=
  if startsWithL t ['#'] then
    match headingMatch t with
    | some (lv, txt) => Block.heading lv [Inline.text txt []]
    | none => Block.heading 3 [Inline.text t []]
  else Block.heading 3 [Inline.text t []]

/-- `currentList.content.push(item)` (source lines 78, 106): the open
list object lives inside `content`, so appending an item updates the
block at the recorded index. -/
def appendItemAt : List Block → Nat → List Inline → List Block
  | [], _, _ => []
  | b :: bs, 0, item =>
    (match b with
     | Block.bulletList items => Block.bulletList (items ++ [item])
     | Block.orderedList items => Block.orderedList (items ++ [item])
     | other => other) :: bs
  | b :: bs, n + 1, item => b :: appendItemAt bs n item

/-- A list item wrapping one paragraph holding a single unmarked text
node (source lines 79-90, 107-118). -/
def mkItem (s : List Char) : List Inline := [Inline.text s []]

/-- `"\n"`-join (source line 48: `codeBlockContent.join("\n")`). -/
def joinWith (sep : List Char) : List (List Char) → List Char
  | [] => []
  | [x] => x
  | x :: xs => x ++ sep ++ joinWith sep xs

/-- The mutable loop state of `convertToADF` (source lines 21-26):
`content`, the open list (`currentList`/`currentListType`, recorded here
as an index into `content` plus the kind), `inCodeBlock`, and
`codeBlockContent`. -/
structure ConvState where
  content : List Block
  cur : Option (Nat × LKind)
  inCode : Bool
  codeAcc : List (List Char)
deriving DecidableEq, Repr

/-- The body of the `for` loop of `convertToADF` for one line (source
lines 28-161), with `next` the value of `lines[i+1] || ""`. -/
def stepLine (line next : List Char) (st : ConvState) : ConvState :=
  let t := jsTrim line
  -- Handle code blocks (source lines 34-53)
  if isFenceLine t then
    if !st.inCode then
      { st with inCode := true, codeAcc := [] }
    else
      { st with
          inCode := false,
          content := st.content ++
            [Block.codeBlock
              (if startsWithL t ("``` ".data) then t.drop 4 else "plain".data)
              (joinWith ['\n'] st.codeAcc)] }
  -- Inside a code block (source lines 55-58)
  else if st.inCode then
    { st with codeAcc := st.codeAcc ++ [line] }
  -- Empty line (source lines 61-65)
  else if t = [] then
    { st with cur := none }
  -- Bullet points (source lines 68-93)
  else if isBulletLine t then
    match st.cur with
    | some (idx, LKind.bullet) =>
      { st with content := appendItemAt st.content idx (mkItem (t.drop 2)) }
    | _ =>
      { st with
        content := st.content ++ [Block.bulletList [mkItem (t.drop 2)]],
        cur := some (st.content.length, LKind.bullet) }
  -- Numbered lists (source lines 96-121)
  else if isOrderedLine t then
    match st.cur with
    | some (idx, LKind.ordered) =>
      { st with content := appendItemAt st.content idx (mkItem (stripOrdered t)) }
    | _ =>
      { st with
        content := st.content ++ [Block.orderedList [mkItem (stripOrdered t)]],
        cur := some (st.content.length, LKind.ordered) }
  -- Headings (source lines 124-148); note: the open list is NOT cleared
  else if isHeadingCond t next then
    { st with content := st.content ++ [headingBlock t] }
  -- Regular paragraph (source lines 151-160)
  else
    { st with
      content := st.content ++ [Block.paragraph (parseInlineFormatting t)],
      cur := none }

/-- The line loop (source line 28), threading `nextLine = lines[i+1] || ""`. -/
def runLines : List (List Char) → ConvState → ConvState
  | [], st => st
  | line :: rest, st => runLines rest (stepLine line (rest.headD []) st)

/-- `convertToADF` (source lines 11-168).  Note that on loop exit any
still-open code block's accumulated lines are discarded: the source has
no end-of-input flush. -/
def convertToADF (text : List Char) : ADFDoc :=
  if text = [] ∨ jsTrim text = [] then ⟨1, []⟩
  else ⟨1, (runLines (splitNL text) ⟨[], none, false, []⟩).content⟩

/-- Value quoting shared by the string and array cases of `formatJQL`
(source lines 279, 282-286): a string containing a space, double quote,
single quote, or backslash (regex `/[ "'\\]/`) is wrapped in double
quotes with embedded double quotes backslash-escaped; otherwise it is
inserted as-is. -/
def hasSpecial (s : List Char) : Bool :=
  s.any (fun c => c = ' ' || c = '"' || c = sqc || c = '\\')

/-- `value.replace(/"/g, '\\"')` (source line 279): global replacement
of each double quote by backslash-quote. -/
def escQ : List Char → List Char
  | [] => []
  | c :: t => (if c = '"' then ['\\', '"'] else [c]) ++ escQ t

/-- `/[ "'\\]/.test(v) ? `"${v.replace(/"/g, '\\"')}"` : v`. -/
def quoteIfSpecial (s : List Char) : List Char :=
  if hasSpecial s then '"' :: (escQ s ++ ['"']) else s

/-- An element of an array value passed to `formatJQL`: either a string
or a non-string scalar carried with its JavaScript `String()` form. -/
inductive JElem
  | str (s : List Char)
  | scalar (repr : List Char)
deriving DecidableEq, Repr

/-- A value of the `params` record of `formatJQL` (`Record<string, any>`
restricted to the kinds the function distinguishes, source lines
277-289): a string, an array, or any other scalar carried with its
JavaScript `String()` form. -/
inductive JVal
  | str (s : List Char)
  | arr (elems : List JElem)
  | scalar (repr : List Char)
deriving DecidableEq, Repr

/-- Array-element formatting (source lines 282-286). -/
def fmtElem : JElem → List Char
  | JElem.str s => quoteIfSpecial s
  | JElem.scalar r => r

/-- The `formattedValue` computation (source lines 277-289). -/
def fmtValue : JVal → List Char
  | JVal.str s => quoteIfSpecial s
  | JVal.arr es => joinWith (", ".data) (es.map fmtElem)
  | JVal.scalar r => r

/-- The placeholder token `${key}` (source line 272). -/
def placeholderOf (k : List Char) : List Char :=
  '$' :: lbrace :: (k ++ [rbrace])

/-- JavaScript `l.includes(p)` (source line 274). -/
def containsSub : List Char → List Char → Bool
  | [], p => p.isEmpty
  | c :: t, p => startsWithL (c :: t) p || containsSub t p

/-- ECMAScript `GetSubstitution` for a string search value (no capture
groups): the replacement text is scanned for `$$`, `$&`, `` $` `` and
`$'` patterns; any other `$` is literal.  This is what
`String.prototype.replace` (source line 291) inserts in place of the
match. -/
def getSubst (matched before after : List Char) : List Char → List Char
  | [] => []
  | [c] => if c = '$' then ['$'] else [c]
  | c :: d :: t2 =>
    if c = '$' then
      if d = '$' then '$' :: getSubst matched before after t2
      else if d = '&' then matched ++ getSubst matched before after t2
      else if d = bq then before ++ getSubst matched before after t2
      else if d = sqc then after ++ getSubst matched before after t2
      else '$' :: getSubst matched before after (d :: t2)
    else c :: getSubst matched before after (d :: t2)

/-- Scan for the leftmost occurrence of `p`; `pre` holds the already
scanned characters in reverse. -/
def rfGo (p r : List Char) : List Char → List Char → List Char
  | pre, rest =>
    if startsWithL rest p then
      pre.reverse ++ getSubst p pre.reverse (rest.drop p.length) r ++ rest.drop p.length
    else
      match rest with
      | [] => pre.reverse
      | c :: t => rfGo p r (c :: pre) t

/-- JavaScript `l.replace(p, r)` with string arguments (source line
291): replace the first occurrence of `p` by the `GetSubstitution`
expansion of `r`; return `l` unchanged when `p` does not occur. -/
def replaceFirst (l p r : List Char) : List Char :=
  rfGo p r [] l

/-- `formatJQL` (source lines 268-296).  `Object.entries(params)` is
modelled by an association list in iteration order. -/
def formatJQL (query : List Char) (params : List (List Char × JVal)) : List Char :=
  match params with
  | [] => query
  | (k, v) :: rest =>
    formatJQL
      (if containsSub query (placeholderOf k) then
         replaceFirst query (placeholderOf k) (fmtValue v)
       else query)
      rest

/-- Modelled from the claim wording of C5 (spec §4.1 rule 6), for
comparison with the implemented rule: a line is a heading exactly when
(a) it begins with one to six `#` characters followed by a space, or
(b) it ends with a colon and the following line is blank or absent. -/
def headingPerClaim (t next : List Char) : Bool :=
  (let hs := t.takeWhile (fun c => c = '#')
   decide (1 ≤ hs.length) && decide (hs.length ≤ 6) &&
     decide ((t.drop hs.length).head? = some ' ')) ||
  (decide (t.getLast? = some ':') && decide (jsTrim next = []))

/-- Dropping with a predicate that holds on every element empties the list. -/
theorem dropWhile_eq_nil_of_all (p : Char → Bool) (l : List Char)
    (h : ∀ c ∈ l, p c = true) : l.dropWhile p = [] := by
  induction l with
  | nil => rfl
  | cons c t ih =>
    rw [List.dropWhile_cons, if_pos (h c (List.mem_cons_self c t))]
    exact ih fun x hx => h x (List.mem_cons_of_mem c hx)

/-- A list of JavaScript whitespace trims to the empty string. -/
theorem jsTrim_eq_nil (s : List Char) (h : ∀ c ∈ s, jsWs c = true) :
    jsTrim s = [] := by
  have h1 : s.dropWhile jsWs = [] := dropWhile_eq_nil_of_all jsWs s h
  simp [jsTrim, h1]

/-- A list starts with each of its prefixes. -/
theorem startsWithL_append (p s : List Char) : startsWithL (p ++ s) p = true := by
  induction p with
  | nil => simp [startsWithL]
  | cons c t ih => simp [startsWithL, ih]

/-- A string that starts with a pattern contains it. -/
theorem containsSub_of_startsWith (l p : List Char)
    (h : startsWithL l p = true) : containsSub l p = true := by
  cases l with
  | nil =>
    cases p with
    | nil => rfl
    | cons d ps => simp [startsWithL] at h
  | cons c t => simp [containsSub, h]

/-- A string beginning with the placeholder contains it. -/
theorem containsSub_placeholder_append (k s : List Char) :
    containsSub (placeholderOf k ++ s) (placeholderOf k) = true :=
  containsSub_of_startsWith _ _ (startsWithL_append (placeholderOf k) s)

/-- Replacing the first occurrence when the pattern sits at the front. -/
theorem replaceFirst_append (p s r : List Char)
    (hp : startsWithL (p ++ s) p = true) :
    replaceFirst (p ++ s) p r = getSubst p [] s r ++ s := by
  rw [replaceFirst, rfGo.eq_def]
  dsimp only
  rw [if_pos hp]
  simp [List.drop_left]

/-- A replacement without a dollar sign is inserted verbatim. -/
theorem getSubst_of_noDollar (m b a : List Char) (r : List Char)
    (h : ∀ c ∈ r, c ≠ '$') : getSubst m b a r = r := by
  induction r with
  | nil => rfl
  | cons c t ih =>
    cases t with
    | nil => simp [getSubst, h c (List.mem_cons_self c [])]
    | cons d t2 =>
      simp only [getSubst]
      rw [if_neg (h c (List.mem_cons_self c (d :: t2)))]
      rw [ih fun x hx => h x (List.mem_cons_of_mem c hx)]

/-- `headingBlock` always yields a heading block. -/
theorem headingBlock_is_heading (t : List Char) :
    ∃ lv c, headingBlock t = Block.heading lv c := by
  unfold headingBlock
  split
  · split
    · exact ⟨_, _, rfl⟩
    · exact ⟨_, _, rfl⟩
  · exact ⟨_, _, rfl⟩

/-- C1: the claim asserts that an unterminated code block absorbs all
remaining lines into a `CodeBlock` — in particular that
`convert("```\nunterminated")` yields a single `CodeBlock` with text
"unterminated".  The code violates this: the loop exits with
`inCodeBlock` still true and the accumulated lines are never flushed, so
the conversion returns a document with zero blocks and the trailing
content is silently dropped. -/
theorem claim1_unterminated_fence_loses_content :
    convertToADF ("```\nunterminated".data) = ⟨1, []⟩ := by decide

/-- C2 counterexample: `convert("```py\nx=1\n```")` does not yield a
`CodeBlock` at all.  The fence test accepts only "```" exactly or
"``` " followed by a tag, so the line "```py" (no space) is parsed as an
ordinary paragraph, and the final "```" opens a code block that is then
dropped at end of input; the result is two paragraphs. -/
theorem claim2_counterexample :
    convertToADF ("```py\nx=1\n```".data) =
      ⟨1, [Block.paragraph [Inline.text [] [Mark.code], Inline.text ("py".data) [Mark.code]],
           Block.paragraph [Inline.text ("x=1".data) []]]⟩
    ∧ (convertToADF ("```py\nx=1\n```".data)).content ≠
        [Block.codeBlock ("py".data) ("x=1".data)] := by
  constructor
  · decide
  · decide

/-- C2 amended: a fence line is exactly "```" or "```" followed by a
space and a tag; the language recorded on the emitted `CodeBlock` is
taken from the CLOSING fence line's tag (or "plain" when the closing
fence is bare), not from the opening fence.  So
`convert("``` py\nx=1\n``` py")` yields a single
`CodeBlock{language="py", text="x=1"}`, while with a bare closing fence
the language is "plain". -/
theorem claim2_fence_language_from_closing :
    convertToADF ("``` py\nx=1\n``` py".data) =
      ⟨1, [Block.codeBlock ("py".data) ("x=1".data)]⟩
    ∧ convertToADF ("``` py\nx=1\n```".data) =
        ⟨1, [Block.codeBlock ("plain".data) ("x=1".data)]⟩ := by
  constructor
  · decide
  · decide

/-- C3 counterexample: the claim says a non-list line terminates the
open list, so no list-item line after an intervening heading may be
appended to a list emitted earlier.  But the heading branch of the
source does not reset the open-list state, so in
`convert("- a\n# H\n- b")` the item "b" — which occurs after the
heading — is appended to the bullet list emitted before it. -/
theorem claim3_counterexample :
    convertToADF ("- a\n# H\n- b".data) =
      ⟨1, [Block.bulletList [[Inline.text ("a".data) []], [Inline.text ("b".data) []]],
           Block.heading 1 [Inline.text ("H".data) []]]⟩ := by decide

/-- C4 counterexample: the claim says list items are run through
inline-mark parsing, so "- **b**" should give an item containing a
Strong run.  The source pushes the raw remainder instead: the item
contains the literal asterisks, which differs from the inline-parsed
form. -/
theorem claim4_counterexample :
    (convertToADF ("- **b**".data)).content =
      [Block.bulletList [[Inline.text ("**b**".data) []]]]
    ∧ parseInlineFormatting ("**b**".data) = [Inline.text ("b".data) [Mark.strong]]
    ∧ [Inline.text ("**b**".data) []] ≠ parseInlineFormatting ("**b**".data) := by
  refine ⟨by decide, by decide, by decide⟩

/-- C5 counterexample: the claim says a non-list, non-fence line is a
heading EXACTLY when (a) it begins with one to six `#` followed by a
space or (b) it ends with a colon before a blank line, and that heading
text is inline-parsed.  The line "#x" satisfies neither (a) nor (b), yet
the code emits a Heading (level 3, text "#x"); and for "# **b**" the
emitted heading text is the raw remainder, not the inline-parsed runs. -/
theorem claim5_counterexample :
    (convertToADF ("#x".data)).content = [Block.heading 3 [Inline.text ("#x".data) []]]
    ∧ headingPerClaim ("#x".data) [] = false
    ∧ (convertToADF ("# **b**".data)).content =
        [Block.heading 1 [Inline.text ("**b**".data) []]]
    ∧ parseInlineFormatting ("**b**".data) ≠ [Inline.text ("**b**".data) []] := by
  refine ⟨by decide, by decide, by decide, by decide⟩

/-- C6 counterexample: the claim says each entry replaces the first
occurrence of its placeholder with the formatted value.  JavaScript's
`String.prototype.replace` interprets `$`-patterns in the replacement
string, so for the value "$&" the inserted text is the matched
placeholder itself, not the formatted value: the result is
"p = ${k}" rather than the claimed "p = $&". -/
theorem claim6_counterexample :
    formatJQL ("p = $\x7bk\x7d".data) [("k".data, JVal.str ("$&".data))] =
      ("p = $\x7bk\x7d".data)
    ∧ ("p = $\x7bk\x7d".data : List Char) ≠ ("p = $&".data : List Char) := by
  refine ⟨by decide, by decide⟩

/-- C7: quoting in `formatJQL` — a string with a space is wrapped in
double quotes, a plain string is inserted unquoted, and a list is
formatted element-wise by the same rule joined with ", ":
the three examples of the claim evaluate exactly as stated. -/
theorem claim7_jql_quoting :
    formatJQL ("project = $\x7bp\x7d".data) [("p".data, JVal.str ("A B".data))] =
      ("project = \"A B\"".data)
    ∧ formatJQL ("project = $\x7bp\x7d".data) [("p".data, JVal.str ("ABC".data))] =
        ("project = ABC".data)
    ∧ formatJQL ("key in ($\x7bvals\x7d)".data)
        [("vals".data, JVal.arr [JElem.str ("x".data), JElem.str ("y z".data)])] =
        ("key in (x, \"y z\")".data) := by
  refine ⟨by decide, by decide, by decide⟩

/-- C8: `parseInline("**bold** and *em* and `code`")` returns exactly
five runs in left-to-right order: Strong "bold", plain " and ",
Emphasis "em", plain " and ", Code "code". -/
theorem claim8_inline_runs :
    parseInlineFormatting ("**bold** and *em* and `code`".data) =
      [Inline.text ("bold".data) [Mark.strong],
       Inline.text (" and ".data) [],
       Inline.text ("em".data) [Mark.em],
       Inline.text (" and ".data) [],
       Inline.text ("code".data) [Mark.code]] := by decide

/-- C9: for every input that is empty or consists only of whitespace,
`convertToADF` returns a document with an empty block sequence (the
guard `!text || !text.trim()` short-circuits to the empty document). -/
theorem claim9_blank_input (s : List Char) (h : ∀ c ∈ s, jsWs c = true) :
    convertToADF s = ⟨1, []⟩ := by
  have ht := jsTrim_eq_nil s h
  simp [convertToADF, ht]

/-- C9 witness: a concrete whitespace-only input. -/
theorem claim9_blank_input_witness :
    convertToADF (" \n\t ".data) = ⟨1, []⟩ :=
  claim9_blank_input (" \n\t ".data) (by decide)

/-- C10: a backslash immediately before a marker character (`*` or
backtick) prevents the marker from opening a run, and the backslash
itself is not consumed: the scan appends both the backslash and the
escaped marker literally to the pending plain text.  In particular
`parseInline("a\*b")` is the single run PlainText("a\*b") with the
backslash retained. -/
theorem claim10_escaped_marker :
    (∀ (fuel : Nat) (s : List Char) (p : Option Char) (cur : List Char)
       (acc : List Inline) (m : Char), m = '*' ∨ m = bq →
       parseScan (fuel + 2) ('\\' :: m :: s) p cur acc =
         parseScan fuel s (some m) (cur ++ ['\\', m]) acc)
    ∧ parseInlineFormatting ("a\\*b".data) = [Inline.text ("a\\*b".data) []] := by
  constructor
  · intro fuel s p cur acc m hm
    have h1 : parseScan (fuel + 1 + 1) ('\\' :: m :: s) p cur acc =
        parseScan (fuel + 1) (m :: s) (some '\\') (cur ++ ['\\']) acc := by
      have hA : ¬('\\' = '*' ∧ (m :: s).head? = some '*' ∧ p ≠ some '\\') := by
        rintro ⟨h, -, -⟩; exact absurd h (by decide)
      have hB : ¬('\\' = '*' ∧ (m :: s).head? ≠ some '*' ∧ p ≠ some '\\') := by
        rintro ⟨h, -, -⟩; exact absurd h (by decide)
      have hC : ¬('\\' = bq ∧ p ≠ some '\\') := by
        rintro ⟨h, -⟩; exact absurd h (by decide)
      simp only [parseScan]
      rw [if_neg hA, if_neg hB, if_neg hC]
    have h2 : parseScan (fuel + 1) (m :: s) (some '\\') (cur ++ ['\\']) acc =
        parseScan fuel s (some m) ((cur ++ ['\\']) ++ [m]) acc := by
      have hA : ¬(m = '*' ∧ s.head? = some '*' ∧ (some '\\' : Option Char) ≠ some '\\') := by
        rintro ⟨-, -, h⟩; exact h rfl
      have hB : ¬(m = '*' ∧ s.head? ≠ some '*' ∧ (some '\\' : Option Char) ≠ some '\\') := by
        rintro ⟨-, -, h⟩; exact h rfl
      have hC : ¬(m = bq ∧ (some '\\' : Option Char) ≠ some '\\') := by
        rintro ⟨-, h⟩; exact h rfl
      simp only [parseScan]
      rw [if_neg hA, if_neg hB, if_neg hC]
    rw [h1, h2, List.append_assoc]
    rfl
  · decide

/-- C10 witness: the escape step applied at a concrete position. -/
theorem claim10_escaped_marker_witness :
    parseScan 2 ['\\', '*'] none [] [] = parseScan 0 [] (some '*') ['\\', '*'] [] :=
  claim10_escaped_marker.1 0 [] none [] [] '*' (Or.inl rfl)

/-- C6 amended: `formatJQL` processes entries in the mapping's iteration
order, and each entry replaces only the first occurrence of its
placeholder `${key}` in the progressively rewritten template with the
formatted value expanded by JavaScript's string-replacement rules
(`$$`, `$&`, `` $` ``, `$'`); a formatted value containing no `$` is
inserted verbatim.  Later occurrences of the same token and placeholders
with no matching entry are left verbatim: (a) a template not containing
the placeholder is returned unchanged; (b) when the template starts with
the placeholder and the formatted value has no `$`, exactly that first
occurrence is replaced and the entire remainder — including any further
copies of the placeholder — is kept verbatim; (c) concretely,
`format("${k} ${k}", {k:"v"})` yields "v ${k}". -/
theorem claim6_substitution :
    (∀ (t k : List Char) (v : JVal),
       containsSub t (placeholderOf k) = false → formatJQL t [(k, v)] = t)
    ∧ (∀ (k suffix : List Char) (v : JVal), (∀ c ∈ fmtValue v, c ≠ '$') →
        formatJQL (placeholderOf k ++ suffix) [(k, v)] = fmtValue v ++ suffix)
    ∧ formatJQL ("$\x7bk\x7d $\x7bk\x7d".data) [("k".data, JVal.str ("v".data))] =
        ("v $\x7bk\x7d".data) := by
  refine ⟨?_, ?_, by decide⟩
  · intro t k v h
    simp [formatJQL, h]
  · intro k suffix v h
    have hc := containsSub_placeholder_append k suffix
    have hs := startsWithL_append (placeholderOf k) suffix
    simp only [formatJQL, hc, if_true]
    rw [replaceFirst_append _ _ _ hs, getSubst_of_noDollar _ _ _ _ h]

/-- C6 witness: clause (a) at a placeholder-free template and clause (b)
at a template that is the placeholder followed by more text. -/
theorem claim6_substitution_witness :
    formatJQL ("a".data) [("k".data, JVal.str ("v".data))] = ("a".data)
    ∧ formatJQL (placeholderOf ("k".data) ++ (" x".data))
        [("k".data, JVal.str ("v".data))] = ("v".data) ++ (" x".data) :=
  ⟨claim6_substitution.1 ("a".data) ("k".data) (JVal.str ("v".data)) (by decide),
   claim6_substitution.2.1 ("k".data) (" x".data) (JVal.str ("v".data)) (by decide)⟩

/-- C3 amended: the currently open list is terminated exactly by a blank
line, a change of list kind, or a plain paragraph line; a heading line
(and a code-fence line) leaves the open-list state untouched, so a
list-item line occurring after an intervening heading block IS appended
to the list block emitted earlier in the sequence.  Clause by clause for
one loop step outside a code block: a blank line clears the open list; a
paragraph line clears it; a heading line leaves it unchanged; a fence
line leaves it unchanged; a bullet line with a bullet list open at index
`idx` appends the item to the block at `idx` (which need not be the last
block) and keeps the list open; a bullet line with no bullet list open
starts a new list at the end. -/
theorem claim3_list_termination (line next : List Char) (st : ConvState)
    (hc : st.inCode = false) :
    (jsTrim line = [] → (stepLine line next st).cur = none)
    ∧ (isFenceLine (jsTrim line) = false → jsTrim line ≠ [] →
       isBulletLine (jsTrim line) = false → isOrderedLine (jsTrim line) = false →
       isHeadingCond (jsTrim line) next = false →
       (stepLine line next st).cur = none)
    ∧ (isFenceLine (jsTrim line) = false → jsTrim line ≠ [] →
       isBulletLine (jsTrim line) = false → isOrderedLine (jsTrim line) = false →
       isHeadingCond (jsTrim line) next = true →
       (stepLine line next st).cur = st.cur)
    ∧ (isFenceLine (jsTrim line) = true → (stepLine line next st).cur = st.cur)
    ∧ (∀ idx, isFenceLine (jsTrim line) = false → isBulletLine (jsTrim line) = true →
       st.cur = some (idx, LKind.bullet) →
       (stepLine line next st).cur = st.cur ∧
       (stepLine line next st).content =
         appendItemAt st.content idx (mkItem ((jsTrim line).drop 2)))
    ∧ (isFenceLine (jsTrim line) = false → isBulletLine (jsTrim line) = true →
       (∀ idx, st.cur ≠ some (idx, LKind.bullet)) →
       (stepLine line next st).cur = some (st.content.length, LKind.bullet)) := by
  refine ⟨?_, ?_, ?_, ?_, ?_, ?_⟩
  · intro hb
    have hf : isFenceLine ([] : List Char) = false := by decide
    simp [stepLine, hb, hc, hf]
  · intro hf ht hbl hor hh
    simp [stepLine, hf, hc, ht, hbl, hor, hh]
  · intro hf ht hbl hor hh
    simp [stepLine, hf, hc, ht, hbl, hor, hh]
  · intro hf
    simp [stepLine, hf, hc]
  · intro idx hf hbl hcur
    have ht : jsTrim line ≠ [] := by
      intro h; rw [h] at hbl; exact absurd hbl (by decide)
    refine ⟨?_, ?_⟩ <;> simp [stepLine, hf, hc, ht, hbl, hcur]
  · intro hf hbl hnot
    have ht : jsTrim line ≠ [] := by
      intro h; rw [h] at hbl; exact absurd hbl (by decide)
    rcases hcase : st.cur with _ | ⟨i, k⟩
    · simp [stepLine, hf, hc, ht, hbl, hcase]
    · cases k with
      | bullet => exact absurd hcase (hnot i)
      | ordered => simp [stepLine, hf, hc, ht, hbl, hcase]

/-- C3 witness: a heading line processed while a bullet list is open at
index 0 leaves that list open. -/
theorem claim3_list_termination_witness :
    (stepLine ("# H".data) [] ⟨[], some (0, LKind.bullet), false, []⟩).cur =
      some (0, LKind.bullet) :=
  (claim3_list_termination ("# H".data) [] ⟨[], some (0, LKind.bullet), false, []⟩
      rfl).2.2.1 (by decide) (by decide) (by decide) (by decide) (by decide)

/-- C4 amended: a bullet-item or ordered-item line appends to the
current list a `ListItem` wrapping a `Paragraph` that contains a single
PLAIN text run holding the remainder of the line verbatim (after the
2-character bullet prefix, or the numeric prefix plus dot plus one
whitespace character) — inline-mark parsing is NOT applied to list
items. -/
theorem claim4_list_items_plain (line next : List Char) (st : ConvState)
    (hc : st.inCode = false) (hf : isFenceLine (jsTrim line) = false) :
    (∀ idx, isBulletLine (jsTrim line) = true → st.cur = some (idx, LKind.bullet) →
       (stepLine line next st).content =
         appendItemAt st.content idx [Inline.text ((jsTrim line).drop 2) []])
    ∧ (isBulletLine (jsTrim line) = true → (∀ idx, st.cur ≠ some (idx, LKind.bullet)) →
       (stepLine line next st).content =
         st.content ++ [Block.bulletList [[Inline.text ((jsTrim line).drop 2) []]]])
    ∧ (∀ idx, isBulletLine (jsTrim line) = false → isOrderedLine (jsTrim line) = true →
       st.cur = some (idx, LKind.ordered) →
       (stepLine line next st).content =
         appendItemAt st.content idx [Inline.text (stripOrdered (jsTrim line)) []])
    ∧ (isBulletLine (jsTrim line) = false → isOrderedLine (jsTrim line) = true →
       (∀ idx, st.cur ≠ some (idx, LKind.ordered)) →
       (stepLine line next st).content =
         st.content ++ [Block.orderedList [[Inline.text (stripOrdered (jsTrim line)) []]]]) := by
  refine ⟨?_, ?_, ?_, ?_⟩
  · intro idx hbl hcur
    have ht : jsTrim line ≠ [] := by
      intro h; rw [h] at hbl; exact absurd hbl (by decide)
    simp [stepLine, hf, hc, ht, hbl, hcur, mkItem]
  · intro hbl hnot
    have ht : jsTrim line ≠ [] := by
      intro h; rw [h] at hbl; exact absurd hbl (by decide)
    rcases hcase : st.cur with _ | ⟨i, k⟩
    · simp [stepLine, hf, hc, ht, hbl, hcase, mkItem]
    · cases k with
      | bullet => exact absurd hcase (hnot i)
      | ordered => simp [stepLine, hf, hc, ht, hbl, hcase, mkItem]
  · intro idx hbl hor hcur
    have ht : jsTrim line ≠ [] := by
      intro h; rw [h] at hor; exact absurd hor (by decide)
    simp [stepLine, hf, hc, ht, hbl, hor, hcur, mkItem]
  · intro hbl hor hnot
    have ht : jsTrim line ≠ [] := by
      intro h; rw [h] at hor; exact absurd hor (by decide)
    rcases hcase : st.cur with _ | ⟨i, k⟩
    · simp [stepLine, hf, hc, ht, hbl, hor, hcase, mkItem]
    · cases k with
      | ordered => exact absurd hcase (hnot i)
      | bullet => simp [stepLine, hf, hc, ht, hbl, hor, hcase, mkItem]

/-- C4 witness: the bullet line "- **b**" with no open list starts a new
bullet list whose single item holds the literal remainder. -/
theorem claim4_list_items_plain_witness :
    (stepLine ("- **b**".data) [] ⟨[], none, false, []⟩).content =
      [Block.bulletList [[Inline.text ("**b**".data) []]]] :=
  (claim4_list_items_plain ("- **b**".data) [] ⟨[], none, false, []⟩
      rfl (by decide)).2.1 (by decide)
    (by intro idx h; exact Option.noConfusion h)

/-- C5 amended: a non-list, non-fence, non-blank line emits a Heading
exactly when it starts with `#` or ends with a colon before a blank (or
absent) next line; a `#`-prefixed line that matches `#`-run + whitespace
gets level `min(#count, 6)` and as text the `(.*)` capture — the
remainder truncated at the first line terminator, since the regex
wildcard does not match `\r`, `\n`, U+2028 or U+2029 — while any other
trigger gets level 3 and the full trimmed line; the heading text is a
single plain run (NOT inline-parsed).  The claim's two examples hold:
`convert("# H1\n## H2")` yields Headings of level 1 and 2, and
`convert("Title:\n")` yields one Heading of level 3 with text "Title:";
and `convert("# a\rb")` yields one Heading of level 1 whose text is just
"a", the tail after the embedded carriage return being dropped by the
capture. -/
theorem claim5_heading_rule :
    (∀ (line next : List Char) (st : ConvState), st.inCode = false →
       isFenceLine (jsTrim line) = false → jsTrim line ≠ [] →
       isBulletLine (jsTrim line) = false → isOrderedLine (jsTrim line) = false →
       (((stepLine line next st).content = st.content ++ [headingBlock (jsTrim line)]) ↔
         isHeadingCond (jsTrim line) next = true))
    ∧ (convertToADF ("# H1\n## H2".data)).content =
        [Block.heading 1 [Inline.text ("H1".data) []],
         Block.heading 2 [Inline.text ("H2".data) []]]
    ∧ (convertToADF ("Title:\n".data)).content =
        [Block.heading 3 [Inline.text ("Title:".data) []]]
    ∧ (convertToADF ("# a\rb".data)).content =
        [Block.heading 1 [Inline.text ("a".data) []]] := by
  refine ⟨?_, by decide, by decide, by decide⟩
  intro line next st hc hf ht hbl hor
  constructor
  · intro hEq
    by_contra hh
    rw [Bool.not_eq_true] at hh
    simp only [stepLine, hf, hc, ht, hbl, hor, hh] at hEq
    simp at hEq
    obtain ⟨lv, c, hblk⟩ := headingBlock_is_heading (jsTrim line)
    rw [hblk] at hEq
    exact Block.noConfusion hEq
  · intro hh
    simp [stepLine, hf, hc, ht, hbl, hor, hh]

/-- C5 witness: the heading characterization at the concrete line "# H". -/
theorem claim5_heading_rule_witness :
    ((stepLine ("# H".data) [] ⟨[], none, false, []⟩).content =
        [] ++ [headingBlock (jsTrim ("# H".data))]) ↔
      isHeadingCond (jsTrim ("# H".data)) [] = true :=
  claim5_heading_rule.1 ("# H".data) [] ⟨[], none, false, []⟩
    rfl (by decide) (by decide) (by decide) (by decide)
